import Mathlib

/-!
Verification of the tag-comparison engine of `git-tag-similarity`.

The Go source is shallowly embedded:

* commit identifiers (`plumbing.Hash`, an opaque content hash compared only
  for equality) are modelled as `Nat`;
* Go `map[plumbing.Hash]struct{}` sets are modelled as `Finset Nat`;
* `float64` arithmetic in `CalculateJaccardSimilarity` is modelled over `ℚ`
  (the function performs a single exact division of two small integers);
* Go strings (byte slices) are modelled as `List Char`;
* the go-git backend primitives (`TagObject`, `CommitObject`, `Log`,
  `Tree.Diff`) are external collaborators of this repository; they are
  modelled from the spec's backend contract (see the individual doc
  comments), while every function of the repository itself is translated
  line by line from the source.
-/

namespace GitTagSimilarity

/-- Embedding of `CalculateJaccardSimilarity` (similarity.go).
The Go function first handles the both-empty case, then builds the union,
returns 0.0 on an empty union (dead code, kept faithfully), and otherwise
divides the intersection size by the union size. -/
def CalculateJaccardSimilarity (setA setB : Finset Nat) : ℚ :=
  if setA.card = 0 ∧ setB.card = 0 then 1
  else
    let union := setA ∪ setB
    if union.card = 0 then 0
    else ((setA ∩ setB).card : ℚ) / (union.card : ℚ)

/-- The partitioning and similarity step of `Compare` (compare.go,
steps 6–7): the two loops over `tag1Commits` and `tag2Commits` classify
each hash into shared / only-in-tag1 / only-in-tag2. -/
structure CompareResult where
  Similarity : ℚ
  SharedCommits : Finset Nat
  OnlyInTag1 : Finset Nat
  OnlyInTag2 : Finset Nat

/-- Embedding of the pure tail of `Compare` (compare.go): given the two
commit sets fetched for the tags, compute the similarity and partition the
hashes exactly as the two `for` loops do. -/
def Compare (tag1Commits tag2Commits : Finset Nat) : CompareResult :=
  { Similarity := CalculateJaccardSimilarity tag1Commits tag2Commits
    SharedCommits := tag1Commits.filter (fun h => h ∈ tag2Commits)
    OnlyInTag1 := tag1Commits.filter (fun h => h ∉ tag2Commits)
    OnlyInTag2 := tag2Commits.filter (fun h => h ∉ tag1Commits) }

/-- C1: `CalculateJaccardSimilarity` returns 1 when both sets are empty,
otherwise returns |A ∩ B| / |A ∪ B|, and the result always lies in [0,1]. -/
theorem calculateJaccardSimilarity_spec (A B : Finset Nat) :
    (A = ∅ ∧ B = ∅ → CalculateJaccardSimilarity A B = 1) ∧
    (¬(A = ∅ ∧ B = ∅) →
      CalculateJaccardSimilarity A B = ((A ∩ B).card : ℚ) / ((A ∪ B).card : ℚ)) ∧
    0 ≤ CalculateJaccardSimilarity A B ∧ CalculateJaccardSimilarity A B ≤ 1 := by
  have hcases : (A = ∅ ∧ B = ∅) ∨ ¬(A = ∅ ∧ B = ∅) := em _
  rcases hcases with ⟨hA, hB⟩ | h
  · subst hA; subst hB
    refine ⟨fun _ => by simp [CalculateJaccardSimilarity], fun h => absurd ⟨rfl, rfl⟩ h, ?_, ?_⟩
    · simp [CalculateJaccardSimilarity]
    · simp [CalculateJaccardSimilarity]
  · have hcard : ¬(A.card = 0 ∧ B.card = 0) := by
      intro ⟨h1, h2⟩
      exact h ⟨Finset.card_eq_zero.mp h1, Finset.card_eq_zero.mp h2⟩
    have hunion : (A ∪ B).card ≠ 0 := by
      intro hu
      have hu' : A ∪ B = ∅ := Finset.card_eq_zero.mp hu
      exact h (Finset.union_eq_empty.mp hu')
    have heq : CalculateJaccardSimilarity A B
        = ((A ∩ B).card : ℚ) / ((A ∪ B).card : ℚ) := by
      unfold CalculateJaccardSimilarity
      rw [if_neg hcard, if_neg hunion]
    have hpos : (0 : ℚ) < ((A ∪ B).card : ℚ) := by
      exact_mod_cast Nat.pos_of_ne_zero hunion
    have hle : (A ∩ B).card ≤ (A ∪ B).card :=
      Finset.card_le_card (Finset.inter_subset_union)
    refine ⟨fun habs => absurd habs h, fun _ => heq, ?_, ?_⟩
    · rw [heq]
      positivity
    · rw [heq]
      rw [div_le_one hpos]
      exact_mod_cast hle

/-- C8: `CalculateJaccardSimilarity` is symmetric in its two arguments. -/
theorem calculateJaccardSimilarity_symm (A B : Finset Nat) :
    CalculateJaccardSimilarity A B = CalculateJaccardSimilarity B A := by
  unfold CalculateJaccardSimilarity
  rw [Finset.union_comm B A, Finset.inter_comm B A]
  by_cases hA : A.card = 0 <;> by_cases hB : B.card = 0 <;>
    simp [hA, hB]

/-- C2: for every successful comparison the three result sets partition the
two input commit sets: shared ∪ onlyInTag1 = tag1's set, shared ∪
onlyInTag2 = tag2's set, and the three sets are pairwise disjoint. -/
theorem compare_partition_invariant (s1 s2 : Finset Nat) :
    (Compare s1 s2).SharedCommits ∪ (Compare s1 s2).OnlyInTag1 = s1 ∧
    (Compare s1 s2).SharedCommits ∪ (Compare s1 s2).OnlyInTag2 = s2 ∧
    Disjoint (Compare s1 s2).SharedCommits (Compare s1 s2).OnlyInTag1 ∧
    Disjoint (Compare s1 s2).SharedCommits (Compare s1 s2).OnlyInTag2 ∧
    Disjoint (Compare s1 s2).OnlyInTag1 (Compare s1 s2).OnlyInTag2 := by
  refine ⟨?_, ?_, ?_, ?_, ?_⟩
  · ext x; simp [Compare]; tauto
  · ext x; simp [Compare]; tauto
  · rw [Finset.disjoint_left]; intro x hx hx'
    simp [Compare] at hx hx'
    exact hx'.2 hx.2
  · rw [Finset.disjoint_left]; intro x hx hx'
    simp [Compare] at hx hx'
    exact hx'.2 hx.1
  · rw [Finset.disjoint_left]; intro x hx hx'
    simp [Compare] at hx hx'
    exact hx'.2 hx.1

/-- Witness for C1 at a concrete input: A = {1,2}, B = {2,3} gives 1/3
(one shared commit over three total), inside [0,1]. -/
theorem calculateJaccardSimilarity_spec_witness :
    ¬(({1, 2} : Finset Nat) = ∅ ∧ ({2, 3} : Finset Nat) = ∅) ∧
    CalculateJaccardSimilarity {1, 2} {2, 3}
      = ((({1, 2} : Finset Nat) ∩ {2, 3}).card : ℚ)
        / ((({1, 2} : Finset Nat) ∪ {2, 3}).card : ℚ) := by
  have h := calculateJaccardSimilarity_spec {1, 2} {2, 3}
  refine ⟨by decide, h.2.1 (by decide)⟩

/-- Witness for C8 at a concrete input. -/
theorem calculateJaccardSimilarity_symm_witness :
    CalculateJaccardSimilarity {1, 2} {2, 3, 4}
      = CalculateJaccardSimilarity {2, 3, 4} {1, 2} :=
  calculateJaccardSimilarity_symm {1, 2} {2, 3, 4}

/-- Witness for C2 at a concrete input. -/
theorem compare_partition_invariant_witness :
    (Compare {1, 2} {2, 3}).SharedCommits ∪ (Compare {1, 2} {2, 3}).OnlyInTag1
      = ({1, 2} : Finset Nat) ∧
    Disjoint (Compare {1, 2} {2, 3}).OnlyInTag1 (Compare {1, 2} {2, 3}).OnlyInTag2 :=
  ⟨(compare_partition_invariant {1, 2} {2, 3}).1,
    (compare_partition_invariant {1, 2} {2, 3}).2.2.2.2⟩

/-! ## Tag resolution and the ancestry walk (repository.go) -/

/-- A git object as stored at a hash: a commit, an annotated tag carrying a
target hash, or some other object kind (tree/blob). -/
inductive GitObject
  | commit
  | tag (target : Nat)
  | other
deriving DecidableEq

/-- Modelled from the spec: the go-git backend primitive
`repo.TagObject(h)`, which succeeds exactly when the object stored at `h`
is an annotated tag, yielding the tag object; dereferencing the tag
(`tagObj.Commit()`) then looks up its target, so this model returns the
target hash. -/
def TagObject (objs : Nat → Option GitObject) (h : Nat) : Option Nat :=
  match objs h with
  | some (GitObject.tag target) => some target
  | _ => none

/-- Modelled from the spec: the go-git backend primitive
`repo.CommitObject(h)`, which succeeds exactly when the object stored at
`h` is a commit. -/
def CommitObject (objs : Nat → Option GitObject) (h : Nat) : Option Nat :=
  match objs h with
  | some GitObject.commit => some h
  | _ => none

/-- Embedding of `resolveTagToCommit` (repository.go): first try to
interpret the reference target as an annotated tag object and dereference
it to its target commit; if it is not a tag object, use the commit the
reference points at directly. -/
def resolveTagToCommit (objs : Nat → Option GitObject) (refHash : Nat) : Option Nat :=
  match TagObject objs refHash with
  | some target => CommitObject objs target
  | none => CommitObject objs refHash

/-- Parent-edge reachability: `Ancestor par c x` holds when commit `x` is
reachable from commit `c` by following zero or more parent edges. -/
inductive Ancestor (par : Nat → List Nat) : Nat → Nat → Prop
  | refl (c : Nat) : Ancestor par c c
  | step {c p x : Nat} : p ∈ par c → Ancestor par p x → Ancestor par c x

theorem ancestor_iff (par : Nat → List Nat) (c x : Nat) :
    Ancestor par c x ↔ x = c ∨ ∃ p ∈ par c, Ancestor par p x := by
  constructor
  · intro h
    cases h with
    | refl => exact Or.inl rfl
    | step hp h => exact Or.inr ⟨_, hp, h⟩
  · rintro (rfl | ⟨p, hp, h⟩)
    · exact Ancestor.refl x
    · exact Ancestor.step hp h

/-- Modelled from the spec: the VCS backend's history traversal
(`git.Repository.Log`, iterated by `GetCommitSetForTag`), which the spec
defines as the set of all commits reachable from the starting commit via
parent edges, each visited exactly once.  The model is fuel-indexed; valid
commit graphs are acyclic, which we capture by a topological numbering
(every parent hash is smaller than its child), so fuel `c` suffices when
starting from commit `c`. -/
def ancestorSetF (par : Nat → List Nat) : Nat → Nat → Finset Nat
  | 0, c => {c}
  | fuel + 1, c =>
      insert c ((par c).foldr (fun p acc => ancestorSetF par fuel p ∪ acc) ∅)

theorem mem_foldr_union (f : Nat → Finset Nat) (l : List Nat) (x : Nat) :
    x ∈ l.foldr (fun p acc => f p ∪ acc) ∅ ↔ ∃ p ∈ l, x ∈ f p := by
  induction l with
  | nil => simp
  | cons a t ih => simp [ih]

theorem mem_ancestorSetF (par : Nat → List Nat)
    (hdec : ∀ c, ∀ p ∈ par c, p < c) :
    ∀ fuel c x : Nat, c ≤ fuel →
      (x ∈ ancestorSetF par fuel c ↔ Ancestor par c x) := by
  intro fuel
  induction fuel with
  | zero =>
    intro c x hc
    have hc0 : c = 0 := Nat.le_zero.mp hc
    subst hc0
    simp only [ancestorSetF, Finset.mem_singleton]
    rw [ancestor_iff]
    constructor
    · intro h; exact Or.inl h
    · rintro (h | ⟨p, hp, _⟩)
      · exact h
      · exact absurd (hdec 0 p hp) (Nat.not_lt_zero p)
  | succ fuel ih =>
    intro c x hc
    simp only [ancestorSetF, Finset.mem_insert, mem_foldr_union]
    rw [ancestor_iff]
    constructor
    · rintro (rfl | ⟨p, hp, hx⟩)
      · exact Or.inl rfl
      · exact Or.inr ⟨p, hp,
          (ih p x (Nat.lt_succ_iff.mp (Nat.lt_of_lt_of_le (hdec c p hp) hc))).mp hx⟩
    · rintro (rfl | ⟨p, hp, hx⟩)
      · exact Or.inl rfl
      · exact Or.inr ⟨p, hp,
          (ih p x (Nat.lt_succ_iff.mp (Nat.lt_of_lt_of_le (hdec c p hp) hc))).mpr hx⟩

/-- The set of all ancestors of `c` (including `c`), as produced by the
backend log walk. -/
def ancestors (par : Nat → List Nat) (c : Nat) : Finset Nat :=
  ancestorSetF par c c

theorem mem_ancestors (par : Nat → List Nat)
    (hdec : ∀ c, ∀ p ∈ par c, p < c) (c x : Nat) :
    x ∈ ancestors par c ↔ Ancestor par c x :=
  mem_ancestorSetF par hdec c c x (Nat.le_refl c)

/-- A commit's data: its parent hashes and its snapshot tree (a list of
file paths with content identifiers). -/
structure CommitData where
  parents : List Nat
  tree : List (List Char × Nat)
deriving DecidableEq

def commitParents (g : Nat → CommitData) (c : Nat) : List Nat := (g c).parents

/-- Embedding of `GetCommitSetForTag` (repository.go): resolve the tag to
a commit via `resolveTagToCommit`, then collect the hashes of every commit
visited by the backend's log walk from it. -/
def GetCommitSetForTag (objs : Nat → Option GitObject) (g : Nat → CommitData)
    (refHash : Nat) : Option (Finset Nat) :=
  (resolveTagToCommit objs refHash).map (fun c => ancestors (commitParents g) c)

/-- C3: resolution tries the annotated-tag interpretation first and
dereferences to the target commit, otherwise uses the commit directly;
hence a lightweight tag at commit `c` and an annotated tag whose object
targets `c` yield identical commit sets from `GetCommitSetForTag`. -/
theorem resolveTag_annotated_lightweight (objs : Nat → Option GitObject)
    (g : Nat → CommitData) (c hY : Nat)
    (hc : objs c = some GitObject.commit)
    (hY' : objs hY = some (GitObject.tag c)) :
    (∀ r t, TagObject objs r = some t →
        resolveTagToCommit objs r = CommitObject objs t) ∧
    (∀ r, TagObject objs r = none →
        resolveTagToCommit objs r = CommitObject objs r) ∧
    GetCommitSetForTag objs g c = some (ancestors (commitParents g) c) ∧
    GetCommitSetForTag objs g hY = some (ancestors (commitParents g) c) ∧
    GetCommitSetForTag objs g c = GetCommitSetForTag objs g hY := by
  have htagC : TagObject objs c = none := by
    unfold TagObject; rw [hc]
  have htagY : TagObject objs hY = some c := by
    unfold TagObject; rw [hY']
  have hcomC : CommitObject objs c = some c := by
    unfold CommitObject; rw [hc]
  have h3 : GetCommitSetForTag objs g c = some (ancestors (commitParents g) c) := by
    simp [GetCommitSetForTag, resolveTagToCommit, htagC, hcomC]
  have h4 : GetCommitSetForTag objs g hY = some (ancestors (commitParents g) c) := by
    simp [GetCommitSetForTag, resolveTagToCommit, htagY, hcomC]
  refine ⟨?_, ?_, h3, h4, h3.trans h4.symm⟩
  · intro r t ht
    unfold resolveTagToCommit
    rw [ht]
  · intro r ht
    unfold resolveTagToCommit
    rw [ht]

/-- Concrete object store for the C3 witness: hash 10 is a commit, hash 20
an annotated tag targeting it. -/
def objsW : Nat → Option GitObject := fun n =>
  if n = 10 then some GitObject.commit
  else if n = 20 then some (GitObject.tag 10) else none

/-- Concrete commit graph with a single parentless commit everywhere. -/
def gW : Nat → CommitData := fun _ => ⟨[], []⟩

/-- Witness for C3: the lightweight tag at hash 10 and the annotated tag at
hash 20 resolve to the same commit set. -/
theorem resolveTag_annotated_lightweight_witness :
    objsW 10 = some GitObject.commit ∧
    objsW 20 = some (GitObject.tag 10) ∧
    GetCommitSetForTag objsW gW 10 = GetCommitSetForTag objsW gW 20 :=
  ⟨rfl, rfl, (resolveTag_annotated_lightweight objsW gW 10 20 rfl rfl).2.2.2.2⟩

/-- C4: in a commit graph with a merge commit `m` having two or more
parents, the walk behind `GetCommitSetForTag` contains every commit
reachable from any parent of `m`; the resulting multiset is duplicate-free
(convergent paths are deduplicated), and any reference resolving to `m`
yields exactly this set. -/
theorem getCommitSet_merge_walk (g : Nat → CommitData)
    (hdec : ∀ c, ∀ p ∈ commitParents g c, p < c)
    (m : Nat) (hmerge : 2 ≤ (commitParents g m).length) :
    (∀ p ∈ commitParents g m, ∀ x, Ancestor (commitParents g) p x →
        x ∈ ancestors (commitParents g) m) ∧
    (ancestors (commitParents g) m).val.Nodup ∧
    (∀ objs refHash, resolveTagToCommit objs refHash = some m →
        GetCommitSetForTag objs g refHash = some (ancestors (commitParents g) m)) := by
  refine ⟨?_, (ancestors (commitParents g) m).nodup, ?_⟩
  · intro p hp x hx
    exact (mem_ancestors (commitParents g) hdec m x).mpr (Ancestor.step hp hx)
  · intro objs refHash hres
    unfold GetCommitSetForTag
    rw [hres]
    rfl

/-- Diamond-shaped commit graph: merge commit 3 with parents 1 and 2, which
share the ancestor 0. -/
def diamondG : Nat → CommitData := fun n =>
  if n = 3 then ⟨[1, 2], []⟩
  else if n = 2 then ⟨[0], []⟩
  else if n = 1 then ⟨[0], []⟩
  else ⟨[], []⟩

theorem diamondG_dec : ∀ c, ∀ p ∈ commitParents diamondG c, p < c := by
  intro c p hp
  unfold commitParents diamondG at hp
  split_ifs at hp with h1 h2 h3 <;> simp at hp <;> omega

/-- Witness for C4 on the diamond graph: the shared ancestor 0 is reached
through parent 1 of the merge commit 3, and the walk's set has exactly the
four distinct commits, counting the shared ancestor once. -/
theorem getCommitSet_merge_walk_witness :
    2 ≤ (commitParents diamondG 3).length ∧
    0 ∈ ancestors (commitParents diamondG) 3 ∧
    (ancestors (commitParents diamondG) 3).card = 4 := by
  have h := getCommitSet_merge_walk diamondG diamondG_dec 3 (by decide)
  refine ⟨by decide, ?_, by decide⟩
  exact h.1 1 (by decide) 0
    (Ancestor.step (show (0 : Nat) ∈ commitParents diamondG 1 by decide)
      (Ancestor.refl 0))

/-! ## Directory-filtered history (repository.go) -/

/-- Embedding of `pathInDirectory` (repository.go).  Go strings are byte
slices, modelled as `List Char`.  The Go code returns true for an empty
directory, strips one trailing `'/'` from the directory, and accepts a
path that starts with the directory and either ends there or continues
with a `'/'`. -/
def pathInDirectory (path directory : List Char) : Bool :=
  if directory = [] then true
  else
    let dir := if directory.getLast? = some '/' then directory.dropLast else directory
    if dir.length ≤ path.length then
      if path.take dir.length = dir then
        if path.length = dir.length then true
        else if path.get? dir.length = some '/' then true
        else false
      else false
    else false

/-- Embedding of `treeContainsDirectory` (repository.go): whether any file
path of the snapshot tree lies in the directory. -/
def treeContainsDirectory (tree : List (List Char × Nat)) (directory : List Char) : Bool :=
  tree.any (fun f => pathInDirectory f.1 directory)

/-- Modelled from the spec: the go-git tree diff (`parentTree.Diff(tree)`)
consumed by `commitTouchesDirectory`; trees are finite path→content maps
and a change records a From and a To path — a deletion has an empty To
name, an addition an empty From name, and a content modification repeats
the path in both. -/
def diffChanges (parentTree tree : List (List Char × Nat)) :
    List (List Char × List Char) :=
  (parentTree.filterMap fun f =>
    match tree.lookup f.1 with
    | none => some (f.1, [])
    | some v => if v = f.2 then none else some (f.1, f.1)) ++
  (tree.filterMap fun f =>
    match parentTree.lookup f.1 with
    | none => some ([], f.1)
    | some _ => none)

/-- Embedding of `commitTouchesDirectory` (repository.go): a parentless
commit touches the directory when its snapshot contains a file there; a
commit with parents touches it when, against at least one parent, some
change's From or To path lies in the directory. -/
def commitTouchesDirectory (g : Nat → CommitData) (c : Nat) (directory : List Char) : Bool :=
  if (g c).parents = [] then
    treeContainsDirectory (g c).tree directory
  else
    (g c).parents.any fun p =>
      (diffChanges (g p).tree (g c).tree).any fun change =>
        pathInDirectory change.1 directory || pathInDirectory change.2 directory

/-- Embedding of `GetCommitSetForTagFilteredByDirectory` (repository.go,
manual-diff implementation): the same resolution and walk as
`GetCommitSetForTag`, keeping only commits that touch the directory. -/
def GetCommitSetForTagFilteredByDirectory (objs : Nat → Option GitObject)
    (g : Nat → CommitData) (refHash : Nat) (directory : List Char) :
    Option (Finset Nat) :=
  (resolveTagToCommit objs refHash).map fun c =>
    (ancestors (commitParents g) c).filter
      (fun cm => commitTouchesDirectory g cm directory = true)

/-- A commit changes something when it is parentless with a non-empty
snapshot, or has a non-empty diff against at least one parent. -/
def commitChangesSomething (g : Nat → CommitData) (c : Nat) : Bool :=
  if (g c).parents = [] then !(g c).tree.isEmpty
  else (g c).parents.any fun p => !(diffChanges (g p).tree (g c).tree).isEmpty

theorem pathInDirectory_nil (p : List Char) : pathInDirectory p [] = true := rfl

theorem any_const_true {α : Type} (l : List α) :
    (l.any fun _ => true) = !l.isEmpty := by
  cases l <;> simp

theorem commitTouchesDirectory_nil (g : Nat → CommitData) (c : Nat) :
    commitTouchesDirectory g c [] = commitChangesSomething g c := by
  unfold commitTouchesDirectory commitChangesSomething treeContainsDirectory
  by_cases h : (g c).parents = []
  · simp only [h, if_true, pathInDirectory_nil, any_const_true]
  · simp only [h, if_false, pathInDirectory_nil, Bool.true_or, any_const_true]

/-- C6 (amended): with an empty directory filter the filtered history is
the unfiltered history restricted to commits that change at least one
file; when every commit of the walk changes something, the two histories
coincide. -/
theorem getCommitSetFiltered_empty_filter (objs : Nat → Option GitObject)
    (g : Nat → CommitData) (refHash : Nat) :
    GetCommitSetForTagFilteredByDirectory objs g refHash []
      = Option.map (fun s => s.filter (fun c => commitChangesSomething g c = true))
          (GetCommitSetForTag objs g refHash) ∧
    (∀ c0, resolveTagToCommit objs refHash = some c0 →
      (∀ c ∈ ancestors (commitParents g) c0, commitChangesSomething g c = true) →
      GetCommitSetForTagFilteredByDirectory objs g refHash []
        = GetCommitSetForTag objs g refHash) := by
  constructor
  · unfold GetCommitSetForTagFilteredByDirectory GetCommitSetForTag
    cases hres : resolveTagToCommit objs refHash with
    | none => rfl
    | some c0 =>
      simp only [Option.map_some']
      congr 1
      apply Finset.filter_congr
      intro x _
      rw [commitTouchesDirectory_nil]
  · intro c0 hres hall
    unfold GetCommitSetForTagFilteredByDirectory GetCommitSetForTag
    rw [hres]
    simp only [Option.map_some']
    congr 1
    have h1 : ∀ x ∈ ancestors (commitParents g) c0,
        commitTouchesDirectory g x [] = true := by
      intro x hx
      rw [commitTouchesDirectory_nil]
      exact hall x hx
    exact Finset.filter_true_of_mem h1

/-- Object store for the C6 counterexample and witness: hash 0 is a
commit. -/
def objsC6 : Nat → Option GitObject := fun n =>
  if n = 0 then some GitObject.commit else none

/-- A graph whose only commit is parentless with an empty snapshot. -/
def gEmptyTree : Nat → CommitData := fun _ => ⟨[], []⟩

/-- Counterexample to C6 as stated: for a history whose initial commit has
an empty snapshot (it changes no files), the empty-filter history differs
from the unfiltered one — the filtered set is empty while the unfiltered
set contains the commit. -/
theorem getCommitSetFiltered_empty_filter_cex :
    GetCommitSetForTagFilteredByDirectory objsC6 gEmptyTree 0 []
      = some (∅ : Finset Nat) ∧
    GetCommitSetForTag objsC6 gEmptyTree 0 = some ({0} : Finset Nat) ∧
    GetCommitSetForTagFilteredByDirectory objsC6 gEmptyTree 0 []
      ≠ GetCommitSetForTag objsC6 gEmptyTree 0 := by
  refine ⟨by decide, by decide, by decide⟩

/-- A graph whose only commit is parentless with a one-file snapshot, so
every ancestor changes something. -/
def gOneFile : Nat → CommitData := fun _ => ⟨[], [(['a'], 1)]⟩

/-- Witness for the amended C6: when every walked commit changes at least
one file, the empty-filter history equals the unfiltered history. -/
theorem getCommitSetFiltered_empty_filter_witness :
    GetCommitSetForTagFilteredByDirectory objsC6 gOneFile 0 []
      = GetCommitSetForTag objsC6 gOneFile 0 :=
  (getCommitSetFiltered_empty_filter objsC6 gOneFile 0).2 0 (by decide) (by decide)

/-- C7 (amended): for a non-empty filter without a trailing slash the
match is exact-prefix and segment-aligned: a path is accepted iff it
equals the filter or extends it by `'/'` and a remainder.  (A filter with
a trailing slash is first normalized by dropping it, see the trailing
slash theorem.) -/
theorem pathInDirectory_segment_aligned (p d : List Char) (hne : d ≠ [])
    (hslash : d.getLast? ≠ some '/') :
    pathInDirectory p d = true ↔ p = d ∨ ∃ r, p = d ++ '/' :: r := by
  unfold pathInDirectory
  rw [if_neg hne]
  simp only [if_neg hslash]
  constructor
  · intro h
    split_ifs at h with h1 h2 h3 h4
    · left
      rw [← h2, ← h3, List.take_length]
    · right
      have h4' : p[d.length]? = some '/' := by
        rw [← List.get?_eq_getElem?]; exact h4
      obtain ⟨hlt, hget⟩ := List.getElem?_eq_some.mp h4'
      refine ⟨p.drop (d.length + 1), ?_⟩
      conv_lhs => rw [← List.take_append_drop d.length p]
      rw [h2, List.drop_eq_getElem_cons hlt, hget]
  · rintro (rfl | ⟨r, rfl⟩)
    · simp
    · have hlen : d.length ≤ (d ++ '/' :: r).length := by
        simp
      have htake : (d ++ '/' :: r).take d.length = d := by
        have h0 := List.take_left d ('/' :: r)
        simpa using h0
      have hget : (d ++ '/' :: r).get? d.length = some '/' := by
        rw [List.get?_append_right (Nat.le_refl d.length)]
        simp
      rw [if_pos hlen, if_pos htake]
      split_ifs with h1
      · rfl
      · rfl

/-- Counterexample to C7 as stated: for the non-empty filter `"src/"`
(which carries a trailing slash) the path `"src/x"` is accepted, yet it
neither equals the filter nor starts with the filter followed by `'/'`. -/
theorem pathInDirectory_segment_aligned_cex :
    pathInDirectory ['s', 'r', 'c', '/', 'x'] ['s', 'r', 'c', '/'] = true ∧
    ['s', 'r', 'c', '/', 'x'] ≠ ['s', 'r', 'c', '/'] ∧
    ∀ r, ['s', 'r', 'c', '/', 'x'] ≠ ['s', 'r', 'c', '/'] ++ '/' :: r := by
  refine ⟨by decide, by decide, ?_⟩
  intro r h
  have h4 := congrArg (fun l => l.get? 4) h
  simp only [List.get?] at h4
  exact absurd (Option.some.inj h4) (by decide)

/-- Witness for the amended C7 at the spec's own examples: filter `"src"`
accepts `"src/x.go"` and the filter itself, and rejects
`"source/x.go"`. -/
theorem pathInDirectory_segment_aligned_witness :
    ("src".data ≠ [] ∧ "src".data.getLast? ≠ some '/') ∧
    pathInDirectory "src/x.go".data "src".data = true ∧
    pathInDirectory "src".data "src".data = true ∧
    pathInDirectory "source/x.go".data "src".data = false := by
  refine ⟨⟨by decide, by decide⟩, ?_, ?_, by decide⟩
  · exact (pathInDirectory_segment_aligned "src/x.go".data "src".data
      (by decide) (by decide)).mpr (Or.inr ⟨"x.go".data, by decide⟩)
  · exact (pathInDirectory_segment_aligned "src".data "src".data
      (by decide) (by decide)).mpr (Or.inl rfl)

/-- C10 (amended): for a non-empty filter without a trailing slash,
appending one trailing `'/'` does not change the verdict; the claim fails
for the empty filter, where `""` disables filtering but `"/"` does not. -/
theorem pathInDirectory_trailing_slash (p d : List Char) (hne : d ≠ [])
    (hslash : d.getLast? ≠ some '/') :
    pathInDirectory p (d ++ ['/']) = pathInDirectory p d := by
  unfold pathInDirectory
  rw [if_neg hne, if_neg (by simp : ¬(d ++ ['/'] = []))]
  simp [List.getLast?_concat, List.dropLast_concat, hslash]

/-- Counterexample to C10 as stated: the empty filter does not end with
`'/'`, yet `pathInDirectory "x" "/"` is false while
`pathInDirectory "x" ""` is true. -/
theorem pathInDirectory_trailing_slash_cex :
    ([] : List Char).getLast? ≠ some '/' ∧
    pathInDirectory ['x'] (([] : List Char) ++ ['/'])
      ≠ pathInDirectory ['x'] [] := by
  refine ⟨by decide, by decide⟩

/-- Witness for the amended C10 at a concrete input: `"src/"` behaves like
`"src"` on the path `"src/x"`. -/
theorem pathInDirectory_trailing_slash_witness :
    ("src".data ≠ [] ∧ "src".data.getLast? ≠ some '/') ∧
    pathInDirectory "src/x".data ("src".data ++ ['/'])
      = pathInDirectory "src/x".data "src".data :=
  ⟨⟨by decide, by decide⟩,
    pathInDirectory_trailing_slash "src/x".data "src".data (by decide) (by decide)⟩

/-! ## Configuration validation against the repository (compare.go) -/

/-- The fields of `CompareConfig` (compare.go) used by the tag-existence
check; tag names are the short reference names Go compares. -/
structure CompareConfig where
  Tag1Name : String
  Tag2Name : String

/-- The two tag-not-found errors of compare.go/cli.go, each carrying the
name reported in the wrapped message `tag '<name>' not found in
repository`. -/
inductive TagLookupError
  | tag1NotFound (name : String)
  | tag2NotFound (name : String)
deriving DecidableEq

/-- Embedding of the repository part of `ValidateWithRepository`
(compare.go): build the name set of the fetched tag references, look up
both requested names, and report tag1 first. -/
def ValidateWithRepository (c : CompareConfig) (tagNames : List String) :
    Option TagLookupError :=
  let tag1Found := c.Tag1Name ∈ tagNames
  let tag2Found := c.Tag2Name ∈ tagNames
  if ¬tag1Found then some (TagLookupError.tag1NotFound c.Tag1Name)
  else if ¬tag2Found then some (TagLookupError.tag2NotFound c.Tag2Name)
  else none

/-- C5: a missing tag yields a tag-not-found error naming that tag, tag1
is checked before tag2, and when both are missing the reported error names
tag1. -/
theorem validateWithRepository_spec (c : CompareConfig) (tagNames : List String) :
    (c.Tag1Name ∉ tagNames →
      ValidateWithRepository c tagNames
        = some (TagLookupError.tag1NotFound c.Tag1Name)) ∧
    (c.Tag1Name ∈ tagNames → c.Tag2Name ∉ tagNames →
      ValidateWithRepository c tagNames
        = some (TagLookupError.tag2NotFound c.Tag2Name)) ∧
    (c.Tag1Name ∉ tagNames → c.Tag2Name ∉ tagNames →
      ValidateWithRepository c tagNames
        = some (TagLookupError.tag1NotFound c.Tag1Name)) ∧
    (c.Tag1Name ∈ tagNames → c.Tag2Name ∈ tagNames →
      ValidateWithRepository c tagNames = none) := by
  unfold ValidateWithRepository
  refine ⟨?_, ?_, ?_, ?_⟩
  · intro h1; simp [h1]
  · intro h1 h2; simp [h1, h2]
  · intro h1 _; simp [h1]
  · intro h1 h2; simp [h1, h2]

/-- Witness for C5: both tags missing from the repository's tag list
reports tag1. -/
theorem validateWithRepository_spec_witness :
    ("v9" ∉ ["v1", "v2"]) ∧ ("v8" ∉ ["v1", "v2"]) ∧
    ValidateWithRepository ⟨"v9", "v8"⟩ ["v1", "v2"]
      = some (TagLookupError.tag1NotFound "v9") :=
  ⟨by decide, by decide,
    (validateWithRepository_spec ⟨"v9", "v8"⟩ ["v1", "v2"]).2.2.1
      (by decide) (by decide)⟩

/-! ## Report generation (report.go, config.go) -/

/-- `AIConfig` (config.go): provider name and API key. -/
structure AIConfig where
  Provider : String
  APIKey : String

/-- The errors of `AIConfig.Validate` (config.go). -/
inductive ConfigError
  | invalidProvider
  | missingAPIKey
deriving DecidableEq

/-- Embedding of `AIConfig.Validate` (config.go): the provider must be one
of claude/openai/gemini, then the API key must be non-empty. -/
def AIConfig.Validate (c : AIConfig) : Option ConfigError :=
  if c.Provider = "claude" ∨ c.Provider = "openai" ∨ c.Provider = "gemini" then
    if c.APIKey = "" then some ConfigError.missingAPIKey else none
  else some ConfigError.invalidProvider

/-- The possible outcomes of `LoadConfig` (config.go), abstracting the
file-system read: missing file, unreadable file, unparsable JSON, or a
loaded configuration. -/
inductive LoadConfigResult
  | notFound
  | readError
  | invalidData
  | ok (config : AIConfig)

/-- The error values `GenerateReport` can return (report.go). -/
inductive ReportError
  | reportGeneration
  | reportWrite
deriving DecidableEq

/-- The observable outcome of `GenerateReport`: success after printing a
warning to stderr and skipping the report, success with the report
written, or an error. -/
inductive ReportOutcome
  | skippedWithWarning
  | written
  | failed (e : ReportError)
deriving DecidableEq

/-- Embedding of `GenerateReport` (report.go).  The external effects are
inputs: `load` is the outcome of `LoadConfig`, `apiCall` the outcome of
the selected provider's HTTP call, `writeOk` whether `os.WriteFile`
succeeds.  Control flow follows the source: a missing config or an
invalid config warns and returns nil; other load failures are errors; a
failed provider call (or the unreachable unsupported-provider branch)
warns and returns nil; a failed write is an error. -/
def GenerateReport (load : LoadConfigResult)
    (apiCall : AIConfig → Except String String) (writeOk : Bool) : ReportOutcome :=
  match load with
  | LoadConfigResult.notFound => ReportOutcome.skippedWithWarning
  | LoadConfigResult.readError => ReportOutcome.failed ReportError.reportGeneration
  | LoadConfigResult.invalidData => ReportOutcome.failed ReportError.reportGeneration
  | LoadConfigResult.ok config =>
    match config.Validate with
    | some _ => ReportOutcome.skippedWithWarning
    | none =>
      let callResult :=
        if config.Provider = "claude" ∨ config.Provider = "openai"
            ∨ config.Provider = "gemini"
        then apiCall config
        else Except.error "unsupported provider"
      match callResult with
      | Except.error _ => ReportOutcome.skippedWithWarning
      | Except.ok _ =>
          if writeOk then ReportOutcome.written
          else ReportOutcome.failed ReportError.reportWrite

/-- C9: a missing credential configuration, an invalid credential
configuration, or a failed provider call makes `GenerateReport` warn and
return success; its error returns arise only from other causes (config
read error, unparsable config data, report write failure). -/
theorem generateReport_degrades_gracefully (load : LoadConfigResult)
    (apiCall : AIConfig → Except String String) (writeOk : Bool) :
    (load = LoadConfigResult.notFound →
      GenerateReport load apiCall writeOk = ReportOutcome.skippedWithWarning) ∧
    (∀ cfg, load = LoadConfigResult.ok cfg → cfg.Validate ≠ none →
      GenerateReport load apiCall writeOk = ReportOutcome.skippedWithWarning) ∧
    (∀ cfg e, load = LoadConfigResult.ok cfg → cfg.Validate = none →
      apiCall cfg = Except.error e →
      GenerateReport load apiCall writeOk = ReportOutcome.skippedWithWarning) ∧
    (∀ e, GenerateReport load apiCall writeOk = ReportOutcome.failed e →
      load = LoadConfigResult.readError ∨ load = LoadConfigResult.invalidData ∨
      (∃ cfg s, load = LoadConfigResult.ok cfg ∧ cfg.Validate = none ∧
        apiCall cfg = Except.ok s ∧ writeOk = false)) := by
  refine ⟨?_, ?_, ?_, ?_⟩
  · rintro rfl; rfl
  · rintro cfg rfl hval
    cases hv : cfg.Validate with
    | none => exact absurd hv hval
    | some err => simp [GenerateReport, hv]
  · rintro cfg e rfl hval hapi
    by_cases hprov : cfg.Provider = "claude" ∨ cfg.Provider = "openai"
        ∨ cfg.Provider = "gemini"
    · simp [GenerateReport, hval, hprov, hapi]
    · simp [GenerateReport, hval, hprov]
  · intro e hfail
    cases load with
    | notFound => exact absurd hfail (by simp [GenerateReport])
    | readError => exact Or.inl rfl
    | invalidData => exact Or.inr (Or.inl rfl)
    | ok cfg =>
      refine Or.inr (Or.inr ?_)
      cases hv : cfg.Validate with
      | some err =>
        have hval : GenerateReport (LoadConfigResult.ok cfg) apiCall writeOk
            = ReportOutcome.skippedWithWarning := by simp [GenerateReport, hv]
        rw [hval] at hfail
        exact absurd hfail (by simp)
      | none =>
        by_cases hprov : cfg.Provider = "claude" ∨ cfg.Provider = "openai"
            ∨ cfg.Provider = "gemini"
        · cases hapi : apiCall cfg with
          | error msg =>
            have hval : GenerateReport (LoadConfigResult.ok cfg) apiCall writeOk
                = ReportOutcome.skippedWithWarning := by
              simp [GenerateReport, hv, hprov, hapi]
            rw [hval] at hfail
            exact absurd hfail (by simp)
          | ok s =>
            by_cases hw : writeOk = true
            · have hval : GenerateReport (LoadConfigResult.ok cfg) apiCall writeOk
                  = ReportOutcome.written := by
                simp [GenerateReport, hv, hprov, hapi, hw]
              rw [hval] at hfail
              exact absurd hfail (by simp)
            · have hw' : writeOk = false := by
                simp at hw; exact hw
              exact ⟨cfg, s, rfl, hv, hapi, hw'⟩
        · have hval : GenerateReport (LoadConfigResult.ok cfg) apiCall writeOk
              = ReportOutcome.skippedWithWarning := by
            simp [GenerateReport, hv, hprov]
          rw [hval] at hfail
          exact absurd hfail (by simp)

/-- Witness for C9: with a valid configuration whose provider call fails,
report generation skips with a warning instead of erroring. -/
theorem generateReport_degrades_gracefully_witness :
    (AIConfig.mk "claude" "k").Validate = none ∧
    GenerateReport (LoadConfigResult.ok ⟨"claude", "k"⟩)
      (fun _ => Except.error "boom") true
      = ReportOutcome.skippedWithWarning :=
  ⟨by decide,
    (generateReport_degrades_gracefully (LoadConfigResult.ok ⟨"claude", "k"⟩)
      (fun _ => Except.error "boom") true).2.2.1 ⟨"claude", "k"⟩ "boom" rfl
      (by decide) rfl⟩

end GitTagSimilarity
